import Mathlib

/-
Verification of the SCHOLAR RISC-V test-environment software against its
design specification.

The development shallowly embeds the C/C++ sources of the repository:
  - software/platform/axi4.cpp        (simulated AXI4 backend)
  - software/platform/memory.cpp      (alignment wrappers + platform mailbox)
  - software/firmware/common/memory.c (bare-metal memory + core mailbox)
  - software/platform/platform.cpp    (platform publish path)
  - software/firmware/repeater/main.c (core publish path)
  - software/defines.h                (memory map constants)
  - simulation/spike_parser.cpp       (golden-trace parser)
  - simulation/simulation_vs_spike.cpp (cycle-stepped comparator)

Machine integers are modelled as Nat with explicit reductions modulo 2^32
where the 32-bit C types (uword_t = uint32_t, per NB_BYTES_IN_WORD = 4 in
defines.h) can wrap.  Fallible C functions return their numeric status
codes; null pointers are modelled with Option.
-/

/-! ## Status codes and global constants (software/defines.h) -/

def SUCCESS : Nat := 0x00
def FAILURE : Nat := 0x01
def ADDR_NOT_ALIGNED : Nat := 0x02
def INVALID_ADDR : Nat := 0x03
def NB_BYTES_IN_WORD : Nat := 0x00000004

/-- Modulus of the 32-bit unsigned machine word `uword_t` (uint32_t in the
32-bit build selected by `NB_BYTES_IN_WORD = 4`). -/
def U32 : Nat := 2 ^ 32

def FPGA_FABRIC_TAG_LSB : Nat := 20
def SOFTCORE_0_TAG : Nat := 0
def SOFTCORE_0_START_ADDR : Nat := SOFTCORE_0_TAG <<< FPGA_FABRIC_TAG_LSB
def SOFTCORE_0_TAG_LSB : Nat := 16

def SOFTCORE_0_PTC_RAM_TAG : Nat := 0b0010
def SOFTCORE_0_PTC_RAM_START_ADDR : Nat :=
  SOFTCORE_0_START_ADDR + (SOFTCORE_0_PTC_RAM_TAG <<< SOFTCORE_0_TAG_LSB)
def SOFTCORE_0_PTC_RAM_PLATFORM_COUNT_ADDR : Nat := SOFTCORE_0_PTC_RAM_START_ADDR
def SOFTCORE_0_PTC_RAM_CORE_COUNT_ADDR : Nat :=
  SOFTCORE_0_PTC_RAM_PLATFORM_COUNT_ADDR + NB_BYTES_IN_WORD
def SOFTCORE_0_PTC_RAM_DATA_SIZE_ADDR : Nat :=
  SOFTCORE_0_PTC_RAM_CORE_COUNT_ADDR + NB_BYTES_IN_WORD
def SOFTCORE_0_PTC_RAM_DATA_ADDR : Nat :=
  SOFTCORE_0_PTC_RAM_DATA_SIZE_ADDR + NB_BYTES_IN_WORD

def SOFTCORE_0_CTP_RAM_TAG : Nat := 0b0011
def SOFTCORE_0_CTP_RAM_START_ADDR : Nat :=
  SOFTCORE_0_START_ADDR + (SOFTCORE_0_CTP_RAM_TAG <<< SOFTCORE_0_TAG_LSB)
def SOFTCORE_0_CTP_RAM_PLATFORM_COUNT_ADDR : Nat := SOFTCORE_0_CTP_RAM_START_ADDR
def SOFTCORE_0_CTP_RAM_CORE_COUNT_ADDR : Nat :=
  SOFTCORE_0_CTP_RAM_PLATFORM_COUNT_ADDR + NB_BYTES_IN_WORD
def SOFTCORE_0_CTP_RAM_DATA_SIZE_ADDR : Nat :=
  SOFTCORE_0_CTP_RAM_CORE_COUNT_ADDR + NB_BYTES_IN_WORD
def SOFTCORE_0_CTP_RAM_DATA_ADDR : Nat :=
  SOFTCORE_0_CTP_RAM_DATA_SIZE_ADDR + NB_BYTES_IN_WORD

/-! ## Simulated AXI4 backend (software/platform/axi4.cpp, SIM build)

The driver code asserts the AXI request signals of the Verilated DUT, waits
(advancing the clock) for the matching ready/valid output, then deasserts.
The DUT's RTL is not part of the analysed sources; the slave side is kept
minimal: each completed AW/W/B handshake triple commits one word to the
backing memory, each AR/R pair returns the word currently stored.  One
`WrBeat`/`RdBeat` value records the request fields of one complete
single-beat handshake sequence (the cycle-by-cycle wait loops carry no
information beyond their completion and are not modelled). -/

/-- Alignment helper of axi4.cpp: both address and size must be multiples of
the granule. -/
def IsAligned (addr size granule : Nat) : Bool :=
  (addr % granule == 0) && (size % granule == 0)

/-- Bus-facing state: the request signals the platform driver code assigns,
plus the word-granular backing memory behind the DUT's AXI slave (keyed by
byte address of the word). -/
structure BusState where
  awaddr : Nat
  awburst : Nat
  awsize : Nat
  awlen : Nat
  awvalid : Nat
  wdata : Nat
  wstrb : Nat
  wlast : Nat
  wvalid : Nat
  bready : Nat
  araddr : Nat
  arburst : Nat
  arsize : Nat
  arlen : Nat
  arvalid : Nat
  rready : Nat
  mem : Nat → Nat

/-- Record of one complete AW/W/B single-beat write handshake: the address
channel fields and the data channel fields driven for that beat. -/
structure WrBeat where
  awaddr : Nat
  awlen : Nat
  awburst : Nat
  awsize : Nat
  wdata : Nat
  wstrb : Nat
  wlast : Nat
deriving DecidableEq

/-- Record of one complete AR/R single-beat read handshake with the data
word captured from the R channel. -/
structure RdBeat where
  araddr : Nat
  arlen : Nat
  arburst : Nat
  arsize : Nat
  rdata : Nat
deriving DecidableEq

/-- One body iteration of the Axi4Write beat loop: drive the AW phase, the
W phase, the B phase (final signal values after the deasserts), and let the
slave commit the word. -/
def writeBeatStep (a w : Nat) (st : BusState) : BusState :=
  { st with
    awaddr := a, awburst := 0, awsize := 0b010, awlen := 0, awvalid := 0,
    wdata := w, wstrb := 0xF, wlast := 1, wvalid := 0, bready := 0,
    mem := fun x => if x = a then w else st.mem x }

/-- The `for (i = 0; i < beats; i++)` loop of Axi4Write: `i` is the data
index, `a` the running word address, the first argument the number of
remaining beats. -/
def writeLoop (d : List Nat) : Nat → Nat → Nat → BusState → BusState × List WrBeat
  | 0, _, _, st => (st, [])
  | n + 1, i, a, st =>
    let w := d.getD i 0
    let st1 := writeBeatStep a w st
    let r := writeLoop d n (i + 1) (a + NB_BYTES_IN_WORD) st1
    (r.1, ⟨a, 0, 0, 0b010, w, 0xF, 1⟩ :: r.2)

/-- Axi4Write of axi4.cpp (SIM backend): argument check, alignment check,
then `size / NB_BYTES_IN_WORD` single-beat AW/W/B handshakes.  `data = none`
models a null pointer. -/
def Axi4Write (addr : Nat) (data : Option (List Nat)) (size : Nat)
    (st : BusState) : Nat × BusState × List WrBeat :=
  match data with
  | none => (FAILURE, st, [])
  | some d =>
    if size = 0 then (FAILURE, st, [])
    else if ¬ IsAligned addr size NB_BYTES_IN_WORD then (ADDR_NOT_ALIGNED, st, [])
    else
      let r := writeLoop d (size / NB_BYTES_IN_WORD) 0 addr st
      (SUCCESS, r.1, r.2)

/-- One body iteration of the Axi4Read beat loop (signal values after the
deasserts; the backing memory is untouched). -/
def readBeatStep (a : Nat) (st : BusState) : BusState :=
  { st with araddr := a, arburst := 0, arsize := 0b010, arlen := 0,
            arvalid := 0, rready := 0 }

/-- The beat loop of Axi4Read: captures `data[i] = s_axi_rdata_o` into the
caller's buffer before deasserting rready. -/
def readLoop : Nat → Nat → Nat → BusState → List Nat →
    BusState × List Nat × List RdBeat
  | 0, _, _, st, buf => (st, buf, [])
  | n + 1, i, a, st, buf =>
    let w := st.mem a
    let st1 := readBeatStep a st
    let r := readLoop n (i + 1) (a + NB_BYTES_IN_WORD) st1 (buf.set i w)
    (r.1, r.2.1, ⟨a, 0, 0, 0b010, w⟩ :: r.2.2)

/-- Axi4Read of axi4.cpp (SIM backend): argument check, alignment check,
then `size / NB_BYTES_IN_WORD` single-beat AR/R handshakes filling the
caller's buffer. -/
def Axi4Read (addr : Nat) (data : Option (List Nat)) (size : Nat)
    (st : BusState) : Nat × BusState × List Nat × List RdBeat :=
  match data with
  | none => (FAILURE, st, [], [])
  | some d =>
    if size = 0 then (FAILURE, st, d, [])
    else if ¬ IsAligned addr size NB_BYTES_IN_WORD then (ADDR_NOT_ALIGNED, st, d, [])
    else
      let r := readLoop (size / NB_BYTES_IN_WORD) 0 addr st d
      (SUCCESS, r.1, r.2.1, r.2.2)

/-- A concrete reset bus state used by witnesses. -/
def busZero : BusState :=
  ⟨0, 0, 0, 0, 0, 0, 0, 0, 0, 0, 0, 0, 0, 0, 0, 0, fun _ => 0⟩

/-- C2: a misaligned address or size with non-null data and positive size is
rejected with ADDR_NOT_ALIGNED before any handshake: the state (signals and
backing memory) is returned untouched, the read buffer is untouched, and no
beat is issued. -/
theorem C2_alignment_reject (addr size : Nat) (d : List Nat) (st : BusState)
    (hsz : 0 < size)
    (hmis : addr % NB_BYTES_IN_WORD ≠ 0 ∨ size % NB_BYTES_IN_WORD ≠ 0) :
    Axi4Write addr (some d) size st = (ADDR_NOT_ALIGNED, st, []) ∧
    Axi4Read addr (some d) size st = (ADDR_NOT_ALIGNED, st, d, []) := by
  have hz : ¬ size = 0 := by omega
  have ha : ¬ IsAligned addr size NB_BYTES_IN_WORD := by
    simp only [IsAligned, Bool.and_eq_true, beq_iff_eq, not_and_or]
    rcases hmis with h | h
    · exact Or.inl h
    · exact Or.inr h
  constructor
  · simp [Axi4Write, hz, ha]
  · simp [Axi4Read, hz, ha]

/-- Witness for C2 at addr = 2, size = 4 (misaligned address). -/
theorem C2_alignment_reject_witness :
    Axi4Write 2 (some [7]) 4 busZero = (ADDR_NOT_ALIGNED, busZero, []) ∧
    Axi4Read 2 (some [7]) 4 busZero = (ADDR_NOT_ALIGNED, busZero, [7], []) :=
  C2_alignment_reject 2 4 [7] busZero (by decide) (by decide)

/-! ## C8: single-beat transaction count -/

/-- The write loop issues one beat per remaining count, at consecutive word
addresses, with burst length 0 and the i-th data word. -/
theorem writeLoop_trace (d : List Nat) :
    ∀ (n i a : Nat) (st : BusState),
      (writeLoop d n i a st).2 =
        (List.range n).map
          (fun j => (⟨a + NB_BYTES_IN_WORD * j, 0, 0, 0b010, d.getD (i + j) 0, 0xF, 1⟩ : WrBeat)) := by
  intro n
  induction n with
  | zero => intro i a st; simp [writeLoop]
  | succ m ih =>
    intro i a st
    simp only [writeLoop, ih]
    rw [List.range_succ_eq_map, List.map_cons, List.map_map]
    refine List.cons_eq_cons.mpr ⟨by simp, ?_⟩
    apply List.map_congr_left
    intro j _
    simp only [Function.comp_apply, Nat.succ_eq_add_one]
    have h1 : a + NB_BYTES_IN_WORD + NB_BYTES_IN_WORD * j
            = a + NB_BYTES_IN_WORD * (j + 1) := by
      simp only [NB_BYTES_IN_WORD]; omega
    have h2 : i + 1 + j = i + (j + 1) := by omega
    rw [h1, h2]

/-- The read loop issues one AR/R beat per remaining count at consecutive
word addresses with burst length 0, and the captured word is the backing
memory's word at that address (the read loop never changes the memory). -/
theorem readLoop_trace :
    ∀ (n i a : Nat) (st : BusState) (buf : List Nat),
      (readLoop n i a st buf).2.2 =
        (List.range n).map
          (fun j => (⟨a + NB_BYTES_IN_WORD * j, 0, 0, 0b010, st.mem (a + NB_BYTES_IN_WORD * j)⟩ : RdBeat)) := by
  intro n
  induction n with
  | zero => intro i a st buf; simp [readLoop]
  | succ m ih =>
    intro i a st buf
    simp only [readLoop, ih]
    rw [List.range_succ_eq_map, List.map_cons, List.map_map]
    refine List.cons_eq_cons.mpr ⟨by simp, ?_⟩
    apply List.map_congr_left
    intro j _
    simp only [Function.comp_apply, Nat.succ_eq_add_one, readBeatStep]
    have h1 : a + NB_BYTES_IN_WORD + NB_BYTES_IN_WORD * j
            = a + NB_BYTES_IN_WORD * (j + 1) := by
      simp only [NB_BYTES_IN_WORD]; omega
    rw [h1]

/-- C8: an aligned request of `size` bytes with non-null data performs
exactly `size / W` single-beat transactions (one AW/W/B handshake triple per
beat for writes, one AR/R pair per beat for reads), each with burst length
field 0, transferring the i-th data word at address `addr + i*W`. -/
theorem C8_single_beat (addr size : Nat) (d : List Nat) (st : BusState)
    (ha : addr % NB_BYTES_IN_WORD = 0) (hs : size % NB_BYTES_IN_WORD = 0) :
    (Axi4Write addr (some d) size st).2.2 =
      (List.range (size / NB_BYTES_IN_WORD)).map
        (fun i => (⟨addr + NB_BYTES_IN_WORD * i, 0, 0, 0b010, d.getD i 0, 0xF, 1⟩ : WrBeat)) ∧
    (Axi4Write addr (some d) size st).2.2.length = size / NB_BYTES_IN_WORD ∧
    (Axi4Read addr (some d) size st).2.2.2 =
      (List.range (size / NB_BYTES_IN_WORD)).map
        (fun i => (⟨addr + NB_BYTES_IN_WORD * i, 0, 0, 0b010,
                     st.mem (addr + NB_BYTES_IN_WORD * i)⟩ : RdBeat)) ∧
    (Axi4Read addr (some d) size st).2.2.2.length = size / NB_BYTES_IN_WORD := by
  have hal : IsAligned addr size NB_BYTES_IN_WORD := by
    simp [IsAligned, ha, hs]
  by_cases hz : size = 0
  · subst hz
    refine ⟨?_, ?_, ?_, ?_⟩ <;> simp [Axi4Write, Axi4Read]
  · have hw : (Axi4Write addr (some d) size st).2.2 =
        (writeLoop d (size / NB_BYTES_IN_WORD) 0 addr st).2 := by
      simp [Axi4Write, hz, hal]
    have hr : (Axi4Read addr (some d) size st).2.2.2 =
        (readLoop (size / NB_BYTES_IN_WORD) 0 addr st d).2.2 := by
      simp [Axi4Read, hz, hal]
    rw [hw, hr, writeLoop_trace, readLoop_trace]
    refine ⟨by simp, by simp, by simp, by simp⟩

/-- Witness for C8 at addr = 8, size = 12 = 3*W: exactly three single-beat
writes and three single-beat reads. -/
theorem C8_single_beat_witness :
    (Axi4Write 8 (some [1, 2, 3]) 12 busZero).2.2 =
      (List.range 3).map
        (fun i => (⟨8 + NB_BYTES_IN_WORD * i, 0, 0, 0b010, [1, 2, 3].getD i 0, 0xF, 1⟩ : WrBeat)) ∧
    (Axi4Write 8 (some [1, 2, 3]) 12 busZero).2.2.length = 3 ∧
    (Axi4Read 8 (some [1, 2, 3]) 12 busZero).2.2.2 =
      (List.range 3).map
        (fun i => (⟨8 + NB_BYTES_IN_WORD * i, 0, 0, 0b010,
                     busZero.mem (8 + NB_BYTES_IN_WORD * i)⟩ : RdBeat)) ∧
    (Axi4Read 8 (some [1, 2, 3]) 12 busZero).2.2.2.length = 3 :=
  C8_single_beat 8 12 [1, 2, 3] busZero (by decide) (by decide)

/-! ## C10: platform MemWrite/MemRead size rounding (software/platform/memory.cpp) -/

/-- Arithmetic meaning of the 32-bit masking in
`(size + (NB_BYTES_IN_WORD-1)) & ~(NB_BYTES_IN_WORD-1)`: for a 32-bit value,
anding with `0xFFFFFFFC` clears the two low bits. -/
theorem land_mask_eq (y : Nat) (hy : y < 2 ^ 32) :
    y &&& (2 ^ 32 - 4) = 4 * (y / 4) := by
  have hmask : (2 ^ 32 - 4 : Nat) = (2 ^ 30 - 1) <<< 2 := by
    rw [Nat.shiftLeft_eq]; norm_num
  have hy4 : 4 * (y / 4) = (y >>> 2) <<< 2 := by
    rw [Nat.shiftRight_eq_div_pow, Nat.shiftLeft_eq]
    norm_num [Nat.mul_comm]
  rw [hmask, hy4]
  apply Nat.eq_of_testBit_eq
  intro j
  rw [Nat.testBit_and, Nat.testBit_shiftLeft, Nat.testBit_shiftLeft,
      Nat.testBit_two_pow_sub_one, Nat.testBit_shiftRight]
  by_cases h2 : 2 ≤ j
  · by_cases h32 : j < 32
    · have hj30 : j - 2 < 30 := by omega
      have hj : 2 + (j - 2) = j := by omega
      simp [h2, hj30, hj, Bool.and_comm]
    · have hfalse : y.testBit j = false :=
        Nat.testBit_lt_two_pow (lt_of_lt_of_le hy (Nat.pow_le_pow_right (by norm_num) (by omega)))
      have hj30 : ¬ (j - 2 < 30) := by omega
      have hj : 2 + (j - 2) = j := by omega
      simp [h2, hj30, hj, hfalse]
  · simp [h2]

/-- The align-up helper used by memory.cpp (and by AlignUp of platform.cpp
and the repeater firmware): `(x + (W-1)) & ~(W-1)` in 32-bit unsigned
arithmetic, with W = NB_BYTES_IN_WORD = 4. -/
def alignUp32 (x : Nat) : Nat :=
  ((x + (NB_BYTES_IN_WORD - 1)) % U32) &&& (U32 - NB_BYTES_IN_WORD)

theorem alignUp32_eq (x : Nat) (hx : x + 3 < U32) :
    alignUp32 x = 4 * ((x + 3) / 4) := by
  have h1 : (x + (NB_BYTES_IN_WORD - 1)) % U32 = x + 3 := by
    simp only [NB_BYTES_IN_WORD, U32] at *
    omega
  rw [alignUp32, h1]
  simp only [U32, NB_BYTES_IN_WORD]
  exact land_mask_eq (x + 3) (by simpa [U32] using hx)

/-- Multiples of four are fixed by alignUp32 (no wrap below 2^32). -/
theorem alignUp32_of_mod (x : Nat) (hx : x < U32) (h4 : x % 4 = 0) :
    alignUp32 x = x := by
  by_cases hw : x + 3 < U32
  · rw [alignUp32_eq x hw]; omega
  · have hx' : x = U32 - 1 ∨ x = U32 - 2 ∨ x = U32 - 3 := by
      simp only [U32] at *; omega
    exfalso
    rcases hx' with h | h | h <;> (subst h; simp only [U32] at h4; omega)

namespace Platform

/-- MemWrite of software/platform/memory.cpp: rounds the byte count up to
the next word multiple and delegates to Axi4Write unchanged otherwise. -/
def MemWrite (addr : Nat) (data : Option (List Nat)) (size : Nat)
    (st : BusState) : Nat × BusState × List WrBeat :=
  Axi4Write addr data (alignUp32 size) st

/-- MemRead of software/platform/memory.cpp: rounds the byte count up to
the next word multiple and delegates to Axi4Read. -/
def MemRead (addr : Nat) (data : Option (List Nat)) (size : Nat)
    (st : BusState) : Nat × BusState × List Nat × List RdBeat :=
  Axi4Read addr data (alignUp32 size) st

end Platform

/-- C10: for a word-aligned address, non-null data and positive size below
the 32-bit wrap limit, the platform wrappers round the size up to the next
word multiple, so the bus layer never reports an alignment error for the
size (the calls succeed), and the number of bytes actually moved — word
size times the number of beats — is the rounded size: at least the request
and less than one word beyond it. -/
theorem C10_size_roundup (addr size : Nat) (d : List Nat) (st : BusState)
    (ha : addr % NB_BYTES_IN_WORD = 0) (hs : 0 < size) (hw : size + 3 < U32) :
    (Platform.MemWrite addr (some d) size st).1 = SUCCESS ∧
    NB_BYTES_IN_WORD * (Platform.MemWrite addr (some d) size st).2.2.length
      = alignUp32 size ∧
    (Platform.MemRead addr (some d) size st).1 = SUCCESS ∧
    NB_BYTES_IN_WORD * (Platform.MemRead addr (some d) size st).2.2.2.length
      = alignUp32 size ∧
    size ≤ alignUp32 size ∧ alignUp32 size < size + NB_BYTES_IN_WORD := by
  have heq : alignUp32 size = 4 * ((size + 3) / 4) := alignUp32_eq size hw
  have h4 : alignUp32 size % NB_BYTES_IN_WORD = 0 := by
    simp only [NB_BYTES_IN_WORD, heq]; omega
  have hz : alignUp32 size ≠ 0 := by
    simp only [heq]; omega
  have hal : IsAligned addr (alignUp32 size) NB_BYTES_IN_WORD := by
    simp [IsAligned, ha, h4]
  have hwlen : (Platform.MemWrite addr (some d) size st).2.2.length
      = alignUp32 size / NB_BYTES_IN_WORD := by
    simp only [Platform.MemWrite, Axi4Write, hz, hal, if_false, if_neg hz,
      not_true, ite_false, Bool.not_true]
    simp [writeLoop_trace]
  have hrlen : (Platform.MemRead addr (some d) size st).2.2.2.length
      = alignUp32 size / NB_BYTES_IN_WORD := by
    simp only [Platform.MemRead, Axi4Read, hz, hal, if_neg hz]
    simp [readLoop_trace]
  refine ⟨?_, ?_, ?_, ?_, ?_, ?_⟩
  · simp [Platform.MemWrite, Axi4Write, hz, hal]
  · rw [hwlen]; simp only [NB_BYTES_IN_WORD, heq]; omega
  · simp [Platform.MemRead, Axi4Read, hz, hal]
  · rw [hrlen]; simp only [NB_BYTES_IN_WORD, heq]; omega
  · simp only [heq]; omega
  · simp only [heq, NB_BYTES_IN_WORD]; omega

/-- Witness for C10 at addr = 4, size = 5: the transfer succeeds and moves
8 bytes. -/
theorem C10_size_roundup_witness :
    (Platform.MemWrite 4 (some [1, 2]) 5 busZero).1 = SUCCESS ∧
    NB_BYTES_IN_WORD * (Platform.MemWrite 4 (some [1, 2]) 5 busZero).2.2.length
      = alignUp32 5 ∧
    (Platform.MemRead 4 (some [1, 2]) 5 busZero).1 = SUCCESS ∧
    NB_BYTES_IN_WORD * (Platform.MemRead 4 (some [1, 2]) 5 busZero).2.2.2.length
      = alignUp32 5 ∧
    5 ≤ alignUp32 5 ∧ alignUp32 5 < 5 + NB_BYTES_IN_WORD :=
  C10_size_roundup 4 5 [1, 2] busZero (by decide) (by decide) (by norm_num [U32])

/-! ## Mailbox layer

Platform side (software/platform/memory.cpp): the shared-memory helpers go
through MemRead/MemWrite, i.e. through the AXI4 backend; their C `static`
shadow counters are threaded explicitly.  Core side
(software/firmware/common/memory.c): bare-metal volatile loads/stores on a
directly addressed memory; each store is recorded as an `(address, value)`
event. -/

/-- Unfolding alignUp32 into plain arithmetic (hypothesis-free form). -/
theorem alignUp32_mul4 (x : Nat) :
    alignUp32 x = 4 * (((x + (NB_BYTES_IN_WORD - 1)) % U32) / 4) := by
  rw [alignUp32]
  simp only [U32, NB_BYTES_IN_WORD]
  exact land_mask_eq _ (Nat.mod_lt _ (by norm_num))

theorem alignUp32_mod4 (x : Nat) : alignUp32 x % 4 = 0 := by
  rw [alignUp32_mul4]; omega

theorem alignUp32_lt (x : Nat) : alignUp32 x < U32 := by
  rw [alignUp32_mul4]
  simp only [U32]
  have h : (x + (NB_BYTES_IN_WORD - 1)) % 2 ^ 32 < 2 ^ 32 :=
    Nat.mod_lt _ (by norm_num)
  omega

theorem alignUp32_idem (x : Nat) : alignUp32 (alignUp32 x) = alignUp32 x :=
  alignUp32_of_mod _ (alignUp32_lt x) (alignUp32_mod4 x)

theorem alignUp32_word : alignUp32 NB_BYTES_IN_WORD = NB_BYTES_IN_WORD :=
  alignUp32_of_mod _ (by norm_num [U32, NB_BYTES_IN_WORD]) (by norm_num [NB_BYTES_IN_WORD])

namespace Platform

/-- SharedWriteReady of memory.cpp: read the CTP platform counter, compare
with the local static `icount`; on equality advance the shadow and report
ready.  Returns (result, new shadow, bus state after the read). -/
def SharedWriteReady (icount : Nat) (st : BusState) : Nat × Nat × BusState :=
  let r := MemRead SOFTCORE_0_CTP_RAM_PLATFORM_COUNT_ADDR (some [0]) NB_BYTES_IN_WORD st
  let count := r.2.2.1.getD 0 0
  if icount = count then (1, (icount + 1) % U32, r.2.1) else (0, icount, r.2.1)

/-- SharedReadReady of memory.cpp: read the CTP core counter; if it is
ahead of the local shadow, advance the shadow and return the published
size, else return 0. -/
def SharedReadReady (icount : Nat) (st : BusState) : Nat × Nat × BusState :=
  let r1 := MemRead SOFTCORE_0_CTP_RAM_CORE_COUNT_ADDR (some [0]) NB_BYTES_IN_WORD st
  let count := r1.2.2.1.getD 0 0
  if icount < count then
    let r2 := MemRead SOFTCORE_0_CTP_RAM_DATA_SIZE_ADDR (some [0]) NB_BYTES_IN_WORD r1.2.1
    (r2.2.2.1.getD 0 0, (icount + 1) % U32, r2.2.1)
  else (0, icount, r1.2.1)

/-- SharedReadAck of memory.cpp: increment the local shadow and write it to
the PTC core counter. -/
def SharedReadAck (icount : Nat) (st : BusState) :
    Nat × Nat × BusState × List WrBeat :=
  let ic := (icount + 1) % U32
  let r := MemWrite SOFTCORE_0_PTC_RAM_CORE_COUNT_ADDR (some [ic]) NB_BYTES_IN_WORD st
  (r.1, ic, r.2.1, r.2.2)

/-- SharedWriteAck of memory.cpp: increment the local shadow and write it to
the PTC platform counter. -/
def SharedWriteAck (icount : Nat) (st : BusState) :
    Nat × Nat × BusState × List WrBeat :=
  let ic := (icount + 1) % U32
  let r := MemWrite SOFTCORE_0_PTC_RAM_PLATFORM_COUNT_ADDR (some [ic]) NB_BYTES_IN_WORD st
  (r.1, ic, r.2.1, r.2.2)

/-- The stdin-to-core publish sequence of platform.cpp's main loop: pad the
byte count to a word boundary, write the payload into the PTC data window,
write the size field, then SharedWriteAck.  Returns the new ack shadow, the
final bus state, and the concatenated write-beat trace. -/
def PlatformPublish (n : Nat) (buf : List Nat) (icountW : Nat)
    (st : BusState) : Nat × BusState × List WrBeat :=
  let stdinSize := alignUp32 n
  let r1 := MemWrite SOFTCORE_0_PTC_RAM_DATA_ADDR (some buf) stdinSize st
  let r2 := MemWrite SOFTCORE_0_PTC_RAM_DATA_SIZE_ADDR (some [stdinSize])
              NB_BYTES_IN_WORD r1.2.1
  let r3 := SharedWriteAck icountW r2.2.1
  (r3.2.1, r3.2.2.1, r1.2.2 ++ r2.2.2 ++ r3.2.2.2)

end Platform

namespace Firmware

/-- The store loop of the bare-metal MemWrite: one volatile word store per
beat, each recorded as an `(address, value)` event. -/
def storeLoop (d : List Nat) : Nat → Nat → Nat → (Nat → Nat) →
    (Nat → Nat) × List (Nat × Nat)
  | 0, _, _, mem => (mem, [])
  | k + 1, i, a, mem =>
    let w := d.getD i 0
    let mem1 : Nat → Nat := fun x => if x = a then w else mem x
    let r := storeLoop d k (i + 1) (a + NB_BYTES_IN_WORD) mem1
    (r.1, (a, w) :: r.2)

/-- MemWrite of software/firmware/common/memory.c: silently ignore
misaligned requests, otherwise store `size / W` words. -/
def MemWrite (addr : Nat) (data : List Nat) (size : Nat) (mem : Nat → Nat) :
    (Nat → Nat) × List (Nat × Nat) :=
  if ¬ (addr % NB_BYTES_IN_WORD = 0 ∧ size % NB_BYTES_IN_WORD = 0) then (mem, [])
  else storeLoop data (size / NB_BYTES_IN_WORD) 0 addr mem

/-- SharedWriteReady of software/firmware/common/memory.c: a pure comparison
of the CTP core counter with the PTC core counter — the function keeps no
local shadow and performs no store. -/
def SharedWriteReady (mem : Nat → Nat) : Nat :=
  if mem SOFTCORE_0_CTP_RAM_CORE_COUNT_ADDR = mem SOFTCORE_0_PTC_RAM_CORE_COUNT_ADDR
  then 1 else 0

/-- SharedReadReady of software/firmware/common/memory.c. -/
def SharedReadReady (mem : Nat → Nat) : Nat :=
  if mem SOFTCORE_0_CTP_RAM_PLATFORM_COUNT_ADDR < mem SOFTCORE_0_PTC_RAM_PLATFORM_COUNT_ADDR
  then mem SOFTCORE_0_PTC_RAM_DATA_SIZE_ADDR else 0

/-- SharedReadAck of software/firmware/common/memory.c: increment the CTP
platform counter in place. -/
def SharedReadAck (mem : Nat → Nat) : (Nat → Nat) × List (Nat × Nat) :=
  let v := (mem SOFTCORE_0_CTP_RAM_PLATFORM_COUNT_ADDR + 1) % U32
  (fun x => if x = SOFTCORE_0_CTP_RAM_PLATFORM_COUNT_ADDR then v else mem x,
   [(SOFTCORE_0_CTP_RAM_PLATFORM_COUNT_ADDR, v)])

/-- SharedWriteAck of software/firmware/common/memory.c: increment the CTP
core counter in place. -/
def SharedWriteAck (mem : Nat → Nat) : (Nat → Nat) × List (Nat × Nat) :=
  let v := (mem SOFTCORE_0_CTP_RAM_CORE_COUNT_ADDR + 1) % U32
  (fun x => if x = SOFTCORE_0_CTP_RAM_CORE_COUNT_ADDR then v else mem x,
   [(SOFTCORE_0_CTP_RAM_CORE_COUNT_ADDR, v)])

/-- The publish sequence of the repeater firmware's main loop
(software/firmware/repeater/main.c): write the payload into the CTP data
window, write the size field, then shared_write_ack. -/
def RepeaterPublish (size : Nat) (buf : List Nat) (mem : Nat → Nat) :
    (Nat → Nat) × List (Nat × Nat) :=
  let alignedSize := alignUp32 size
  let r1 := MemWrite SOFTCORE_0_CTP_RAM_DATA_ADDR buf alignedSize mem
  let r2 := MemWrite SOFTCORE_0_CTP_RAM_DATA_SIZE_ADDR [alignedSize]
              NB_BYTES_IN_WORD r1.1
  let r3 := SharedWriteAck r2.1
  (r3.1, r1.2 ++ r2.2 ++ r3.2)

end Firmware

/-! ## C3, C4, C5: mailbox properties -/

/-- The all-zero shared memory: the state both sides establish at boot
(platform.cpp clears the PTC region, the repeater firmware clears the CTP
region). -/
def memZeroInit : Nat → Nat := fun _ => 0

/-- Trace of a single-word platform MemWrite at a word-aligned address. -/
theorem memWrite_word_trace (a v : Nat) (st : BusState)
    (ha : a % NB_BYTES_IN_WORD = 0) :
    (Platform.MemWrite a (some [v]) NB_BYTES_IN_WORD st).2.2
      = [⟨a, 0, 0, 0b010, v, 0xF, 1⟩] := by
  have hal : IsAligned a NB_BYTES_IN_WORD NB_BYTES_IN_WORD := by
    simp [IsAligned, ha]
  simp only [Platform.MemWrite, alignUp32_word, Axi4Write, hal]
  norm_num [NB_BYTES_IN_WORD, writeLoop]

/-- Evaluated form of the platform-side SharedWriteReady: the counter read
returns the CTP platform-counter word of the backing memory and only the
read-channel signals change. -/
theorem plat_swr_eval (icount : Nat) (st : BusState) :
    Platform.SharedWriteReady icount st =
      if icount = st.mem SOFTCORE_0_CTP_RAM_PLATFORM_COUNT_ADDR
      then (1, (icount + 1) % U32,
            readBeatStep SOFTCORE_0_CTP_RAM_PLATFORM_COUNT_ADDR st)
      else (0, icount,
            readBeatStep SOFTCORE_0_CTP_RAM_PLATFORM_COUNT_ADDR st) := by
  have hal : IsAligned SOFTCORE_0_CTP_RAM_PLATFORM_COUNT_ADDR
      NB_BYTES_IN_WORD NB_BYTES_IN_WORD := by decide
  simp only [Platform.SharedWriteReady, Platform.MemRead, alignUp32_word,
    Axi4Read, hal]
  norm_num [NB_BYTES_IN_WORD, readLoop]

/-- C3 counterexample: on the core/firmware side the write-ready check keeps
no local shadow counter and performs no store, so the memory it reads is
unchanged when the check is immediately repeated; from the reachable
all-zero boot state both of two consecutive checks return 1 — the claimed
pair (true, false) does not hold on that side. -/
theorem C3_counterexample :
    (Firmware.SharedWriteReady memZeroInit,
     Firmware.SharedWriteReady memZeroInit) = (1, 1) := by
  constructor

/-- C3 (amended): on the platform side the claim holds — a successful
write-ready check advances the local shadow, so an immediately repeated
check on the unchanged channel memory reports not-ready (0), never
(1, 1). -/
theorem C3_platform_single_publish (st : BusState) (icount : Nat)
    (_hi : icount < U32)
    (h1 : (Platform.SharedWriteReady icount st).1 = 1) :
    (Platform.SharedWriteReady (Platform.SharedWriteReady icount st).2.1
       (Platform.SharedWriteReady icount st).2.2).1 = 0 := by
  have hS := plat_swr_eval icount st
  rw [hS] at h1
  by_cases hc : icount = st.mem SOFTCORE_0_CTP_RAM_PLATFORM_COUNT_ADDR
  · rw [if_pos hc] at hS
    rw [hS, plat_swr_eval]
    dsimp only [readBeatStep]
    have hne : ¬ ((icount + 1) % U32
        = st.mem SOFTCORE_0_CTP_RAM_PLATFORM_COUNT_ADDR) := by
      rw [← hc]
      simp only [U32] at *
      omega
    rw [if_neg hne]
  · rw [if_neg hc] at h1
    simp at h1

/-- Witness for the amended C3 at the boot state with shadow 0. -/
theorem C3_platform_single_publish_witness :
    (Platform.SharedWriteReady (Platform.SharedWriteReady 0 busZero).2.1
       (Platform.SharedWriteReady 0 busZero).2.2).1 = 0 :=
  C3_platform_single_publish busZero 0 (by norm_num [U32])
    (by rw [plat_swr_eval]; rfl)

/-- Trace of the firmware store loop: one `(address, value)` event per word,
at consecutive word addresses. -/
theorem storeLoop_trace (d : List Nat) :
    ∀ (n i a : Nat) (mem : Nat → Nat),
      (Firmware.storeLoop d n i a mem).2 =
        (List.range n).map
          (fun j => (a + NB_BYTES_IN_WORD * j, d.getD (i + j) 0)) := by
  intro n
  induction n with
  | zero => intro i a mem; simp [Firmware.storeLoop]
  | succ m ih =>
    intro i a mem
    simp only [Firmware.storeLoop, ih]
    rw [List.range_succ_eq_map, List.map_cons, List.map_map]
    refine List.cons_eq_cons.mpr ⟨by simp, ?_⟩
    apply List.map_congr_left
    intro j _
    simp only [Function.comp_apply, Nat.succ_eq_add_one]
    have h1 : a + NB_BYTES_IN_WORD + NB_BYTES_IN_WORD * j
            = a + NB_BYTES_IN_WORD * (j + 1) := by
      simp only [NB_BYTES_IN_WORD]; omega
    have h2 : i + 1 + j = i + (j + 1) := by omega
    rw [h1, h2]

/-- Trace of an aligned multi-word platform MemWrite. -/
theorem memWrite_data_trace (a : Nat) (buf : List Nat) (sz : Nat)
    (st : BusState) (ha : a % NB_BYTES_IN_WORD = 0) (hsz : sz % 4 = 0)
    (hlt : sz < U32) :
    (Platform.MemWrite a (some buf) sz st).2.2 =
      (List.range (sz / NB_BYTES_IN_WORD)).map
        (fun i => ⟨a + NB_BYTES_IN_WORD * i, 0, 0, 0b010, buf.getD i 0, 0xF, 1⟩) := by
  have hup : alignUp32 sz = sz := alignUp32_of_mod sz hlt hsz
  by_cases hz : sz = 0
  · subst hz
    simp [Platform.MemWrite, Axi4Write, hup]
  · have hal : IsAligned a sz NB_BYTES_IN_WORD := by
      simp only [IsAligned, NB_BYTES_IN_WORD] at *
      simp [ha, hsz]
    simp only [Platform.MemWrite, hup, Axi4Write, hal, hz]
    simp [writeLoop_trace]

/-- Trace of an aligned firmware MemWrite. -/
theorem fwMemWrite_trace (a : Nat) (buf : List Nat) (sz : Nat)
    (mem : Nat → Nat) (ha : a % NB_BYTES_IN_WORD = 0) (hsz : sz % 4 = 0) :
    (Firmware.MemWrite a buf sz mem).2 =
      (List.range (sz / NB_BYTES_IN_WORD)).map
        (fun i => (a + NB_BYTES_IN_WORD * i, buf.getD i 0)) := by
  have hcond : (a % NB_BYTES_IN_WORD = 0 ∧ sz % NB_BYTES_IN_WORD = 0) := by
    simp only [NB_BYTES_IN_WORD] at *
    exact ⟨ha, hsz⟩
  simp only [Firmware.MemWrite]
  rw [if_neg (not_not_intro hcond), storeLoop_trace]
  simp

/-- The firmware store loop never writes below its base address. -/
theorem storeLoop_mem_lt (d : List Nat) :
    ∀ (n i a : Nat) (mem : Nat → Nat) (x : Nat), x < a →
      (Firmware.storeLoop d n i a mem).1 x = mem x := by
  intro n
  induction n with
  | zero => intro i a mem x _; simp [Firmware.storeLoop]
  | succ m ih =>
    intro i a mem x hx
    simp only [Firmware.storeLoop]
    rw [ih _ _ _ _ (by simp only [NB_BYTES_IN_WORD]; omega)]
    simp [Nat.ne_of_lt hx]

/-- The firmware MemWrite never writes below its base address. -/
theorem fwMemWrite_mem_lt (a : Nat) (buf : List Nat) (sz : Nat)
    (mem : Nat → Nat) (x : Nat) (hx : x < a) :
    (Firmware.MemWrite a buf sz mem).1 x = mem x := by
  simp only [Firmware.MemWrite]
  by_cases h : ¬ (a % NB_BYTES_IN_WORD = 0 ∧ sz % NB_BYTES_IN_WORD = 0)
  · rw [if_pos h]
  · rw [if_neg h]
    exact storeLoop_mem_lt buf _ 0 a mem x hx

/-- C4: in both publish sequences — the platform's stdin-to-core path of
platform.cpp and the repeater firmware's core-to-platform path — the write
trace is exactly: the payload data words, then the payload size word, then
the producer-counter increment, in that order; the counter increment is the
last event and never precedes either write. -/
theorem C4_publish_order (n : Nat) (buf : List Nat) (ackW : Nat)
    (st : BusState) (size : Nat) (fbuf : List Nat) (mem : Nat → Nat) :
    (Platform.PlatformPublish n buf ackW st).2.2 =
      ((List.range (alignUp32 n / NB_BYTES_IN_WORD)).map
        (fun i => (⟨SOFTCORE_0_PTC_RAM_DATA_ADDR + NB_BYTES_IN_WORD * i,
                    0, 0, 0b010, buf.getD i 0, 0xF, 1⟩ : WrBeat)))
      ++ [⟨SOFTCORE_0_PTC_RAM_DATA_SIZE_ADDR, 0, 0, 0b010, alignUp32 n, 0xF, 1⟩]
      ++ [⟨SOFTCORE_0_PTC_RAM_PLATFORM_COUNT_ADDR, 0, 0, 0b010,
           (ackW + 1) % U32, 0xF, 1⟩] ∧
    (Firmware.RepeaterPublish size fbuf mem).2 =
      ((List.range (alignUp32 size / NB_BYTES_IN_WORD)).map
        (fun i => (SOFTCORE_0_CTP_RAM_DATA_ADDR + NB_BYTES_IN_WORD * i,
                   fbuf.getD i 0)))
      ++ [(SOFTCORE_0_CTP_RAM_DATA_SIZE_ADDR, alignUp32 size)]
      ++ [(SOFTCORE_0_CTP_RAM_CORE_COUNT_ADDR,
           (mem SOFTCORE_0_CTP_RAM_CORE_COUNT_ADDR + 1) % U32)] := by
  constructor
  · have h1 : (Platform.MemWrite SOFTCORE_0_PTC_RAM_DATA_ADDR (some buf)
        (alignUp32 n) st).2.2 =
        (List.range (alignUp32 n / NB_BYTES_IN_WORD)).map
          (fun i => (⟨SOFTCORE_0_PTC_RAM_DATA_ADDR + NB_BYTES_IN_WORD * i,
                      0, 0, 0b010, buf.getD i 0, 0xF, 1⟩ : WrBeat)) :=
      memWrite_data_trace _ buf _ st (by decide) (alignUp32_mod4 n) (alignUp32_lt n)
    have h2 : ∀ s, (Platform.MemWrite SOFTCORE_0_PTC_RAM_DATA_SIZE_ADDR
        (some [alignUp32 n]) NB_BYTES_IN_WORD s).2.2 =
        [⟨SOFTCORE_0_PTC_RAM_DATA_SIZE_ADDR, 0, 0, 0b010, alignUp32 n, 0xF, 1⟩] :=
      fun s => memWrite_word_trace _ _ s (by decide)
    have h3 : ∀ s, (Platform.MemWrite SOFTCORE_0_PTC_RAM_PLATFORM_COUNT_ADDR
        (some [(ackW + 1) % U32]) NB_BYTES_IN_WORD s).2.2 =
        [⟨SOFTCORE_0_PTC_RAM_PLATFORM_COUNT_ADDR, 0, 0, 0b010,
          (ackW + 1) % U32, 0xF, 1⟩] :=
      fun s => memWrite_word_trace _ _ s (by decide)
    simp only [Platform.PlatformPublish, Platform.SharedWriteAck, h1, h2, h3]
  · have h1 : (Firmware.MemWrite SOFTCORE_0_CTP_RAM_DATA_ADDR fbuf
        (alignUp32 size) mem).2 =
        (List.range (alignUp32 size / NB_BYTES_IN_WORD)).map
          (fun i => (SOFTCORE_0_CTP_RAM_DATA_ADDR + NB_BYTES_IN_WORD * i,
                     fbuf.getD i 0)) :=
      fwMemWrite_trace _ fbuf _ mem (by decide) (alignUp32_mod4 size)
    have h2 : ∀ m, (Firmware.MemWrite SOFTCORE_0_CTP_RAM_DATA_SIZE_ADDR
        [alignUp32 size] NB_BYTES_IN_WORD m).2 =
        (List.range 1).map
          (fun i => (SOFTCORE_0_CTP_RAM_DATA_SIZE_ADDR + NB_BYTES_IN_WORD * i,
                     [alignUp32 size].getD i 0)) :=
      fun m => fwMemWrite_trace _ _ _ m (by decide) (by decide)
    have hwa : ∀ m, (Firmware.MemWrite SOFTCORE_0_CTP_RAM_DATA_SIZE_ADDR
        [alignUp32 size] NB_BYTES_IN_WORD m).2 =
        [(SOFTCORE_0_CTP_RAM_DATA_SIZE_ADDR, alignUp32 size)] := by
      intro m
      rw [h2 m]
      rw [show List.range 1 = [0] from rfl]
      simp
    have hack : ∀ m1 : Nat → Nat,
        m1 SOFTCORE_0_CTP_RAM_CORE_COUNT_ADDR
          = mem SOFTCORE_0_CTP_RAM_CORE_COUNT_ADDR →
        (Firmware.SharedWriteAck m1).2 =
          [(SOFTCORE_0_CTP_RAM_CORE_COUNT_ADDR,
            (mem SOFTCORE_0_CTP_RAM_CORE_COUNT_ADDR + 1) % U32)] := by
      intro m1 hm
      simp [Firmware.SharedWriteAck, hm]
    have hmempres :
        ((Firmware.MemWrite SOFTCORE_0_CTP_RAM_DATA_SIZE_ADDR [alignUp32 size]
            NB_BYTES_IN_WORD
            (Firmware.MemWrite SOFTCORE_0_CTP_RAM_DATA_ADDR fbuf
              (alignUp32 size) mem).1).1)
          SOFTCORE_0_CTP_RAM_CORE_COUNT_ADDR
          = mem SOFTCORE_0_CTP_RAM_CORE_COUNT_ADDR := by
      rw [fwMemWrite_mem_lt _ _ _ _ _ (by decide),
          fwMemWrite_mem_lt _ _ _ _ _ (by decide)]
    simp only [Firmware.RepeaterPublish, h1, hwa, hack _ hmempres]

/-- C5 counterexample: the CTP channel's producer is the core, and the
core's publish increment (SharedWriteAck of the firmware, called at the end
of the repeater's publish sequence) writes the word at channel offset W —
`SOFTCORE_0_CTP_RAM_CORE_COUNT_ADDR = start + NB_BYTES_IN_WORD` — not the
word at channel offset 0 as the claim states for both channels. -/
theorem C5_counterexample :
    (Firmware.SharedWriteAck memZeroInit).2 =
      [(SOFTCORE_0_CTP_RAM_START_ADDR + NB_BYTES_IN_WORD, 1)] ∧
    SOFTCORE_0_CTP_RAM_START_ADDR + NB_BYTES_IN_WORD
      ≠ SOFTCORE_0_CTP_RAM_START_ADDR := by
  constructor
  · rfl
  · decide

/-- C5 (amended): each channel region holds, in fixed order, the platform
counter at offset 0, the core counter at offset W, the payload byte count
at offset 2W and the payload window from offset 3W.  The producer counter
is the offset-0 (platform) word for the PTC channel — the platform's
SharedWriteAck targets it — but the offset-W (core) word for the CTP
channel — the firmware's SharedWriteAck targets it. -/
theorem C5_layout (ack : Nat) (st : BusState) (mem : Nat → Nat) :
    SOFTCORE_0_PTC_RAM_PLATFORM_COUNT_ADDR = SOFTCORE_0_PTC_RAM_START_ADDR ∧
    SOFTCORE_0_PTC_RAM_CORE_COUNT_ADDR
      = SOFTCORE_0_PTC_RAM_START_ADDR + NB_BYTES_IN_WORD ∧
    SOFTCORE_0_PTC_RAM_DATA_SIZE_ADDR
      = SOFTCORE_0_PTC_RAM_START_ADDR + 2 * NB_BYTES_IN_WORD ∧
    SOFTCORE_0_PTC_RAM_DATA_ADDR
      = SOFTCORE_0_PTC_RAM_START_ADDR + 3 * NB_BYTES_IN_WORD ∧
    SOFTCORE_0_CTP_RAM_PLATFORM_COUNT_ADDR = SOFTCORE_0_CTP_RAM_START_ADDR ∧
    SOFTCORE_0_CTP_RAM_CORE_COUNT_ADDR
      = SOFTCORE_0_CTP_RAM_START_ADDR + NB_BYTES_IN_WORD ∧
    SOFTCORE_0_CTP_RAM_DATA_SIZE_ADDR
      = SOFTCORE_0_CTP_RAM_START_ADDR + 2 * NB_BYTES_IN_WORD ∧
    SOFTCORE_0_CTP_RAM_DATA_ADDR
      = SOFTCORE_0_CTP_RAM_START_ADDR + 3 * NB_BYTES_IN_WORD ∧
    (Platform.SharedWriteAck ack st).2.2.2 =
      [⟨SOFTCORE_0_PTC_RAM_START_ADDR, 0, 0, 0b010, (ack + 1) % U32, 0xF, 1⟩] ∧
    (Firmware.SharedWriteAck mem).2 =
      [(SOFTCORE_0_CTP_RAM_START_ADDR + NB_BYTES_IN_WORD,
        (mem (SOFTCORE_0_CTP_RAM_START_ADDR + NB_BYTES_IN_WORD) + 1) % U32)] := by
  refine ⟨by decide, by decide, by decide, by decide, by decide, by decide,
          by decide, by decide, ?_, ?_⟩
  · exact memWrite_word_trace _ _ st (by decide)
  · rfl

/-! ## Reference-trace data model (simulation/spike_parser.h) -/

/-- One parsed reference instruction (struct Instr of spike_parser.h).  The
`next` pointer of the C struct is represented by list order; calloc
zero-initialization is `emptyInstr`.  `instr` is the mnemonic text buffer,
`rd` the int8_t destination register. -/
structure Instr where
  core : Nat
  addr : Nat
  instr_bin : Nat
  instr : List Char
  rd : Int
  rd_data : Nat
  mem_addr : Nat
  mem_data : Nat
deriving DecidableEq

/-- A freshly calloc'd (all-zero) instruction node. -/
def emptyInstr : Instr := ⟨0, 0, 0, [], 0, 0, 0, 0⟩

/-- Bounded prefix comparison (memcmp of a fixed token against a buffer). -/
def startsWithL : List Char → List Char → Bool
  | [], _ => true
  | _ :: _, [] => false
  | p :: ps, c :: cs => p == c && startsWithL ps cs

/-- The terminal-token test `memcmp(instr, "ebreak", 6) == 0`. -/
def isEbreak (l : List Char) : Bool :=
  startsWithL ('e' :: 'b' :: 'r' :: 'e' :: 'a' :: 'k' :: []) l

/-! ## Cycle-stepped comparator (simulation/simulation_vs_spike.cpp)

The comparator advances the Verilated DUT cycle by cycle and, on each
asserted writeback-valid strobe, checks the retiring reference instruction.
The DUT's RTL is outside the analysed sources; the architectural values the
checks read from it (the DATA RAM word behind a store, the destination
GPR's content, the mhpmcounter CSRs) are supplied per retired instruction
by an observation oracle `obs`.  The wb_valid wait cycles and the final
settling cycle advance time only and carry no checked state. -/

/-- Modelled from the spec: the `ADDR_OFFSET` macro used by
ReadBackAlignedData is defined outside the analysed sources; per the spec
the read-back word is shifted "by the address's intra-word byte offset", so
the mask is W - 1 = 3 for the 32-bit build. -/
def ADDR_OFFSET : Nat := 3

/-- Architectural observations of the DUT at one writeback: the DATA RAM
word addressed by the retiring store, the content of the destination GPR,
and the three performance counters read by the CSR checks (32-bit
values). -/
structure DutObs where
  ramWord : Nat
  gprRd : Nat
  mhpm0 : Nat
  mhpm3 : Nat
  mhpm4 : Nat
deriving DecidableEq

/-- Opcode test for STORE (0100011). -/
def IsStore (instr_bin : Nat) : Bool := (instr_bin &&& 0x7F) == 0b0100011

/-- Opcode test for CSR/SYSTEM (1110011). -/
def IsCSR (instr_bin : Nat) : Bool := (instr_bin &&& 0x7F) == 0b1110011

/-- 32-bit wrapping subtraction (uword_t arithmetic of `counter - N`). -/
def sub32 (a b : Nat) : Nat := (a % U32 + U32 - b % U32) % U32

/-- verify_mem of simulation_vs_spike.cpp: read back the stored word,
shift by the intra-word byte offset, and compare under the funct3-selected
width mask (SB/SH/SW, otherwise full width). -/
def verify_mem (instr : Instr) (obs : DutObs) : Nat :=
  let rb := obs.ramWord >>> ((instr.mem_addr &&& ADDR_OFFSET) * 8)
  let funct3 := (instr.instr_bin >>> 12) &&& 7
  if funct3 = 0b000 then
    if (rb &&& 0xFF) ≠ (instr.mem_data &&& 0xFF) then FAILURE else SUCCESS
  else if funct3 = 0b001 then
    if (rb &&& 0xFFFF) ≠ (instr.mem_data &&& 0xFFFF) then FAILURE else SUCCESS
  else if funct3 = 0b010 then
    if (rb &&& 0xFFFFFFFF) ≠ (instr.mem_data &&& 0xFFFFFFFF) then FAILURE
    else SUCCESS
  else
    if rb ≠ instr.mem_data then FAILURE else SUCCESS

/-- verify_gpr of simulation_vs_spike.cpp: CSR reads are checked against the
timing-corrected counters (csr 0xb00 against mhpmcounter0 - 4, 0xb03
against mhpmcounter3 - 2, 0xb04 against mhpmcounter4, anything else is an
unsupported CSR and fails); the 0xb00 success path additionally force-writes
the destination register with the reference value (a DUT-state effect that
does not change the returned flag).  An ordinary writeback compares the
destination GPR with the reference value; a negative rd skips the check. -/
def verify_gpr (instr : Instr) (obs : DutObs) : Nat :=
  if IsCSR instr.instr_bin then
    if instr.instr_bin >>> 20 = 0xb00 then
      if obs.gprRd ≠ sub32 obs.mhpm0 4 then FAILURE else SUCCESS
    else if instr.instr_bin >>> 20 = 0xb03 then
      if obs.gprRd ≠ sub32 obs.mhpm3 2 then FAILURE else SUCCESS
    else if instr.instr_bin >>> 20 = 0xb04 then
      if obs.gprRd ≠ obs.mhpm4 then FAILURE else SUCCESS
    else FAILURE
  else
    if 0 ≤ instr.rd then
      if obs.gprRd ≠ instr.rd_data then FAILURE else SUCCESS
    else SUCCESS

/-- The per-commit dispatch of run's loop body: stores go to verify_mem,
everything else to verify_gpr. -/
def checkInstr (instr : Instr) (obs : DutObs) : Nat :=
  if IsStore instr.instr_bin then verify_mem instr obs else verify_gpr instr obs

/-- The comparison loop of run (simulation_vs_spike.cpp): walk the
reference sequence until the terminal ebreak node, checking each retiring
instruction with the observation of its commit; `if (flag != SUCCESS)
break;` leaves the loop at the first mismatch.  Returns the final flag and
the list of instructions that were actually checked. -/
def runLoop (obs : Nat → DutObs) : List Instr → Nat → Nat × List Instr
  | [], _ => (SUCCESS, [])
  | instr :: rest, k =>
    if isEbreak instr.instr then (SUCCESS, [])
    else
      let f := checkInstr instr (obs k)
      if f ≠ SUCCESS then (f, [instr])
      else
        let r := runLoop obs rest (k + 1)
        (r.1, instr :: r.2)

/-- run of simulation_vs_spike.cpp, reduced to its comparison loop (the
parsing, firmware loading and the final settling cycle surround it). -/
def run (obs : Nat → DutObs) (instrs : List Instr) : Nat × List Instr :=
  runLoop obs instrs 0

/-! ## C1: behaviour on a mismatch -/

/-- Demo store instruction whose SB check fails (expected 0xAB, DUT word
reads 0xCD). -/
def demoFailStore : Instr :=
  ⟨0, 0x2000, 0x00100023, ('s' :: 'b' :: []), 0, 0, 0x1000, 0xAB⟩

/-- Demo ordinary writeback instruction whose GPR check passes under
`cmpDemoObs`. -/
def demoPassAddi : Instr :=
  ⟨0, 0x2004, 0x00100093, ('a' :: 'd' :: 'd' :: 'i' :: []), 1, 1, 0, 0⟩

/-- Demo terminal node. -/
def demoEbreak : Instr :=
  ⟨0, 0x2008, 0x00100073, ('e' :: 'b' :: 'r' :: 'e' :: 'a' :: 'k' :: []), 0, 0, 0, 0⟩

/-- Constant observation oracle: the store read-back is 0xCD (mismatching
0xAB), the destination GPR holds 1. -/
def cmpDemoObs : Nat → DutObs := fun _ => ⟨0xCD, 1, 0, 0, 0⟩

/-- C1 counterexample: with the reference sequence [failing store,
passing addi, ebreak], the run records FAILURE but the addi node is never
checked — the loop breaks at the first mismatch instead of continuing to
the terminal ebreak node. -/
theorem C1_counterexample :
    (run cmpDemoObs [demoFailStore, demoPassAddi, demoEbreak]).1 = FAILURE ∧
    demoPassAddi ∉ (run cmpDemoObs [demoFailStore, demoPassAddi, demoEbreak]).2 := by
  decide

/-- C1 (amended): when every instruction before position `|pre|` passes its
check and the instruction `x` at that position fails, the run returns x's
failing flag and has checked exactly the instructions up to and including
x — it stops at the first mismatch and checks nothing after it. -/
theorem runLoop_cons_pass (obs : Nat → DutObs) (p : Instr)
    (rest : List Instr) (k : Nat)
    (h1 : isEbreak p.instr = false) (h2 : checkInstr p (obs k) = SUCCESS) :
    runLoop obs (p :: rest) k
      = ((runLoop obs rest (k + 1)).1, p :: (runLoop obs rest (k + 1)).2) := by
  simp [runLoop, h1, h2]

theorem runLoop_cons_fail (obs : Nat → DutObs) (p : Instr)
    (rest : List Instr) (k : Nat)
    (h1 : isEbreak p.instr = false) (h2 : checkInstr p (obs k) ≠ SUCCESS) :
    runLoop obs (p :: rest) k = (checkInstr p (obs k), [p]) := by
  simp [runLoop, h1, h2]

theorem C1_stop_at_first_mismatch (obs : Nat → DutObs) (pre : List Instr)
    (x : Instr) (rest : List Instr)
    (hpre : ∀ k, k < pre.length → isEbreak (pre.getD k emptyInstr).instr = false
      ∧ checkInstr (pre.getD k emptyInstr) (obs k) = SUCCESS)
    (hx1 : isEbreak x.instr = false)
    (hx2 : checkInstr x (obs pre.length) ≠ SUCCESS) :
    run obs (pre ++ x :: rest) = (checkInstr x (obs pre.length), pre ++ [x]) := by
  suffices h : ∀ (pre' : List Instr) (k0 : Nat),
      (∀ k, k < pre'.length → isEbreak (pre'.getD k emptyInstr).instr = false
        ∧ checkInstr (pre'.getD k emptyInstr) (obs (k0 + k)) = SUCCESS) →
      checkInstr x (obs (k0 + pre'.length)) ≠ SUCCESS →
      runLoop obs (pre' ++ x :: rest) k0
        = (checkInstr x (obs (k0 + pre'.length)), pre' ++ [x]) by
    have := h pre 0 (by simpa using hpre) (by simpa using hx2)
    simpa [run] using this
  intro pre'
  induction pre' with
  | nil =>
    intro k0 _ hx2'
    simp only [List.length_nil, Nat.add_zero] at hx2'
    rw [List.nil_append, runLoop_cons_fail obs x rest k0 hx1 hx2']
    simp
  | cons p ps ih =>
    intro k0 hpre' hx2'
    have hp := hpre' 0 (by simp)
    simp only [List.getD_cons_zero, Nat.add_zero] at hp
    have hps : ∀ k, k < ps.length →
        isEbreak (ps.getD k emptyInstr).instr = false
        ∧ checkInstr (ps.getD k emptyInstr) (obs (k0 + 1 + k)) = SUCCESS := by
      intro k hk
      have h := hpre' (k + 1) (by simp; omega)
      have harg : k0 + (k + 1) = k0 + 1 + k := by omega
      rw [List.getD_cons_succ, harg] at h
      exact h
    have hx2'' : checkInstr x (obs (k0 + 1 + ps.length)) ≠ SUCCESS := by
      have harg : k0 + 1 + ps.length = k0 + (p :: ps).length := by
        simp only [List.length_cons]; omega
      rw [harg]
      exact hx2'
    rw [List.cons_append, runLoop_cons_pass obs p _ k0 hp.1 hp.2,
        ih (k0 + 1) hps hx2'']
    have harg : k0 + 1 + ps.length = k0 + (p :: ps).length := by
      simp only [List.length_cons]; omega
    rw [harg]
    simp

/-- Witness for the amended C1: one passing instruction, then the failing
store; the run stops right after the store. -/
theorem C1_stop_at_first_mismatch_witness :
    run cmpDemoObs ([demoPassAddi] ++ demoFailStore :: [demoEbreak])
      = (checkInstr demoFailStore (cmpDemoObs [demoPassAddi].length),
         [demoPassAddi] ++ [demoFailStore]) :=
  C1_stop_at_first_mismatch cmpDemoObs [demoPassAddi] demoFailStore [demoEbreak]
    (by decide) (by decide) (by decide)

/-! ## Trace parser (simulation/spike_parser.cpp)

Lines are the char sequences fgets returns (trailing newline included when
present); the end sentinel `lfptr = ptr + strlen(ptr)` is the end of the
list.  The sscanf field conversions are modelled on the bare digit forms
the Spike log uses: `%u`/`%hhu` as a decimal digit run, `%x`/`%SCNx64` as a
hexadecimal digit run, each after optional leading whitespace; the sign and
`0x`-prefix forms accepted by strtoul do not occur in the logs and are not
modelled.  A failed conversion stores nothing, as in C.  The `%SCNx64`
conversions into the 32-bit struct fields keep the value modulo 2^32 (the
de-facto little-endian behaviour, each clobbered neighbouring field being
rewritten afterwards). -/

def removeSpaces (l : List Char) : List Char :=
  l.dropWhile (fun c => c == ' ')

def moveToNextSpace (l : List Char) : List Char :=
  l.dropWhile (fun c => c != ' ')

/-- IsCommentOrBlank of spike_parser.cpp: skip blanks, then empty, `#` or
`//`. -/
def isCommentOrBlank (l : List Char) : Bool :=
  let s := l.dropWhile (fun c => c == ' ' || c == '\t' || c == '\r' || c == '\n')
  match s with
  | [] => true
  | c :: rest =>
    c == '#' || (c == '/' && (match rest with
                              | c2 :: _ => c2 == '/'
                              | [] => false))

/-- strstr-style substring test. -/
def hasSubstr (pat : List Char) : List Char → Bool
  | [] => startsWithL pat []
  | c :: cs => startsWithL pat (c :: cs) || hasSubstr pat cs

/-- The first-line denylist of the parse loop: `>>>>` markers, `$x` mapping
symbols, comments and blank lines are skipped. -/
def skipLine (l : List Char) : Bool :=
  hasSubstr ('>' :: '>' :: '>' :: '>' :: []) l
    || hasSubstr ('$' :: 'x' :: []) l
    || isCommentOrBlank l

def isWS (c : Char) : Bool :=
  c == ' ' || c == '\t' || c == '\n' || c == '\r' || c == '\x0b' || c == '\x0c'

def isDigitC (c : Char) : Bool := 48 ≤ c.toNat && c.toNat ≤ 57

def isHexDigitC (c : Char) : Bool :=
  (48 ≤ c.toNat && c.toNat ≤ 57) || (97 ≤ c.toNat && c.toNat ≤ 102)
    || (65 ≤ c.toNat && c.toNat ≤ 70)

def decCharVal (c : Char) : Nat := c.toNat - 48

def hexCharVal (c : Char) : Nat :=
  if 48 ≤ c.toNat && c.toNat ≤ 57 then c.toNat - 48
  else if 97 ≤ c.toNat && c.toNat ≤ 102 then c.toNat - 87
  else if 65 ≤ c.toNat && c.toNat ≤ 70 then c.toNat - 55
  else 0

/-- sscanf "%u" / "%hhu" on the log's decimal forms. -/
def scanDec (l : List Char) : Option Nat :=
  let t := l.dropWhile isWS
  let ds := t.takeWhile isDigitC
  if ds.isEmpty then none
  else some (ds.foldl (fun a c => 10 * a + decCharVal c) 0)

/-- sscanf "%x" / "%SCNx64" on the log's bare hexadecimal forms. -/
def scanHex (l : List Char) : Option Nat :=
  let t := l.dropWhile isWS
  let ds := t.takeWhile isHexDigitC
  if ds.isEmpty then none
  else some (ds.foldl (fun a c => 16 * a + hexCharVal c) 0)

def ParseCore (ins : Instr) (p : List Char) : Instr × List Char :=
  let p1 := removeSpaces (moveToNextSpace p)
  let ins1 := match scanDec p1 with
              | some v => { ins with core := v % 256 }
              | none => ins
  (ins1, removeSpaces (moveToNextSpace p1))

def ParseAddr (ins : Instr) (p : List Char) : Instr × List Char :=
  let ins1 := match scanHex p with
              | some v => { ins with addr := v % U32 }
              | none => ins
  (ins1, removeSpaces (moveToNextSpace p))

def ParseInstrBin (ins : Instr) (p : List Char) : Instr × List Char :=
  let p0 := if p.head? == some '(' then p.tail else p
  let ins1 := match scanHex p0 with
              | some v => { ins with instr_bin := v % U32 }
              | none => ins
  (ins1, removeSpaces (moveToNextSpace p0))

/-- ParseInstrAsm of spike_parser.cpp: copy at most 31 bytes, dropping the
final newline (`copy - 1`; for `copy = 0` the C memcpy size underflows —
undefined behaviour — which the total model renders as an empty copy). -/
def ParseInstrAsm (ins : Instr) (p : List Char) : Instr :=
  let n := p.length
  let copy := min n 31
  { ins with instr := p.take (copy - 1) }

/-- The first-line field sequence of the parse loop. -/
def parseLine1 (ins : Instr) (l : List Char) : Instr :=
  let r1 := ParseCore ins l
  let r2 := ParseAddr r1.1 r1.2
  let r3 := ParseInstrBin r2.1 r2.2
  ParseInstrAsm r3.1 r3.2

/-- The int8_t cast `ins->rd = (int8_t)tmp`. -/
def int8ofNat (t : Nat) : Int :=
  if t % 256 < 128 then (t % 256 : Int) else (t % 256 : Int) - 256

/-- ParseRd of spike_parser.cpp: note that a failed conversion leaves the
local `tmp = 0`, which is still stored into rd. -/
def ParseRd (ins : Instr) (p : List Char) : Instr × List Char :=
  let p0 := if p.head? == some 'x' then p.tail else p
  let tmp := (scanDec p0).getD 0
  ({ ins with rd := int8ofNat tmp }, removeSpaces (moveToNextSpace p0))

def ParseRdData (ins : Instr) (p : List Char) : Instr × List Char :=
  let ins1 := match scanHex p with
              | some v => { ins with rd_data := v % U32 }
              | none => ins
  (ins1, removeSpaces (moveToNextSpace p))

def ParseMem (ins : Instr) (p : List Char) : Instr :=
  let p1 := removeSpaces (moveToNextSpace p)
  let ins1 := match scanHex p1 with
              | some v => { ins with mem_addr := v % U32 }
              | none => ins
  let p2 := removeSpaces (moveToNextSpace p1)
  if p2.isEmpty then ins1
  else match scanHex p2 with
       | some v => { ins1 with mem_data := v % U32 }
       | none => ins1

/-- The second-line (result line) handling of the parse loop: find a `)`
(tolerating its absence), then the optional GPR writeback field and the
optional memory field. -/
def parseLine2 (ins : Instr) (l : List Char) : Instr :=
  let p := l.dropWhile (fun c => c != ')')
  match p with
  | [] => ins
  | _ :: p1 =>
    let p2 := removeSpaces p1
    let r := if p2.head? == some 'x' then
               let ra := ParseRd ins p2
               ParseRdData ra.1 ra.2
             else (ins, p2)
    if 3 ≤ r.2.length && startsWithL ('m' :: 'e' :: 'm' :: []) r.2
    then ParseMem r.1 r.2 else r.1

/-- The instrumentation threshold of the parse loop (`0x00002000ULL`):
records below it belong to Spike's own startup code and are discarded. -/
def SPIKE_SKIP_THRESHOLD : Nat := 0x00002000

/-- The main loop of Parse (spike_parser.cpp).  `cur` is the node being
filled (freshly calloc'd or memset to zero after a skip), `acc` the
reversed list of linked nodes.  On EOF or on the terminal ebreak line the
current node stays linked at the tail, exactly as in the C list. -/
def parseLoop : List (List Char) → Instr → List Instr → List Instr
  | [], cur, acc => acc.reverse ++ [cur]
  | line :: rest, cur, acc =>
    if skipLine line then parseLoop rest cur acc
    else
      let cur1 := parseLine1 cur line
      if isEbreak cur1.instr then acc.reverse ++ [cur1]
      else
        match rest with
        | [] => acc.reverse ++ [cur1]
        | line2 :: rest2 =>
          let cur2 := if isCommentOrBlank line2 then cur1 else parseLine2 cur1 line2
          if cur2.addr < SPIKE_SKIP_THRESHOLD then parseLoop rest2 emptyInstr acc
          else parseLoop rest2 emptyInstr (cur2 :: acc)

/-- The trailing prune of Parse: the last node is freed when its mnemonic
buffer is still empty (covers both the lone-empty-head case and the
general trailing-empty-node case). -/
def pruneLast (l : List Instr) : List Instr :=
  match l.getLast? with
  | none => []
  | some x => if x.instr = [] then l.dropLast else l

/-- SpikeLog of spike_parser.h; a null instruction pointer is the empty
list. -/
structure SpikeLog where
  instructions : List Instr
deriving DecidableEq

/-- ParseSpike of spike_parser.cpp, for a file that could be opened: Parse
builds the linked list (the up-front node allocation is assumed to
succeed), the trailing empty node is pruned, and the SpikeLog itself is
returned non-null regardless of how many records were parsed.  The
null-returning failure paths (unopenable file, allocation failure for the
SpikeLog) precede any parsing and stay outside the model. -/
def ParseSpike (lines : List (List Char)) : SpikeLog :=
  ⟨pruneLast (parseLoop lines emptyInstr [])⟩

/-! ## C9: a log with no parseable record yields a non-null, empty trace -/

/-- The parse loop leaves the current node and the linked list untouched on
lines it skips. -/
theorem parseLoop_all_skipped :
    ∀ (lines : List (List Char)) (cur : Instr) (acc : List Instr),
      (∀ l ∈ lines, skipLine l = true) →
      parseLoop lines cur acc = acc.reverse ++ [cur] := by
  intro lines
  induction lines with
  | nil => intro cur acc _; rfl
  | cons line rest ih =>
    intro cur acc h
    have hl : skipLine line = true := h line (by simp)
    simp only [parseLoop, hl, if_true]
    exact ih cur acc (fun l hm => h l (by simp [hm]))

/-- C9 (amended): for every input whose lines are all blank, comment or
denylisted (in particular an empty file), ParseSpike still returns a
SpikeLog — not a failure — whose instruction list is empty: the lone empty
node allocated up front is pruned rather than returned.  (The wider class
of files with no parseable in-range record does not satisfy this: a
below-threshold terminal ebreak record still yields a node, see the
counterexample.) -/
theorem C9_empty_trace (lines : List (List Char))
    (h : ∀ l ∈ lines, skipLine l = true) :
    ParseSpike lines = ⟨[]⟩ := by
  unfold ParseSpike
  rw [parseLoop_all_skipped lines emptyInstr [] h]
  rfl

/-- Witness for C9 on a two-line log of one comment and one blank line. -/
theorem C9_empty_trace_witness :
    ParseSpike [('/' :: '/' :: ' ' :: 'a' :: '\n' :: []), ('\n' :: [])] = ⟨[]⟩ :=
  C9_empty_trace _ (by decide)

/-! ## C7: the instrumentation threshold -/

/-- Invariant of the parse loop: every node moved into the linked
accumulator has passed the threshold check, so in the final list every
node except the trailing one is at or above the threshold. -/
theorem parseLoop_threshold :
    ∀ (n : Nat) (lines : List (List Char)), lines.length ≤ n →
      ∀ (cur : Instr) (acc : List Instr),
        (∀ x ∈ acc, SPIKE_SKIP_THRESHOLD ≤ x.addr) →
        ∀ x ∈ (parseLoop lines cur acc).dropLast, SPIKE_SKIP_THRESHOLD ≤ x.addr := by
  intro n
  induction n with
  | zero =>
    intro lines hlen cur acc hacc x hx
    have : lines = [] := List.length_eq_zero.mp (by omega)
    subst this
    simp only [parseLoop, List.dropLast_concat] at hx
    exact hacc x (List.mem_reverse.mp hx)
  | succ m ih =>
    intro lines hlen cur acc hacc x hx
    match lines with
    | [] =>
      simp only [parseLoop, List.dropLast_concat] at hx
      exact hacc x (List.mem_reverse.mp hx)
    | line :: rest =>
      simp only [parseLoop] at hx
      by_cases hskip : skipLine line = true
      · rw [if_pos hskip] at hx
        exact ih rest (by simp at hlen; omega) cur acc hacc x hx
      · rw [if_neg hskip] at hx
        by_cases hebr : isEbreak (parseLine1 cur line).instr = true
        · rw [if_pos hebr] at hx
          rw [List.dropLast_concat] at hx
          exact hacc x (List.mem_reverse.mp hx)
        · rw [if_neg hebr] at hx
          match rest with
          | [] =>
            rw [List.dropLast_concat] at hx
            exact hacc x (List.mem_reverse.mp hx)
          | line2 :: rest2 =>
            simp only at hx
            by_cases hth :
                (if isCommentOrBlank line2 then parseLine1 cur line
                 else parseLine2 (parseLine1 cur line) line2).addr
                  < SPIKE_SKIP_THRESHOLD
            · rw [if_pos hth] at hx
              exact ih rest2 (by simp at hlen; omega) emptyInstr acc hacc x hx
            · rw [if_neg hth] at hx
              refine ih rest2 (by simp at hlen; omega) emptyInstr _ ?_ x hx
              intro y hy
              rcases List.mem_cons.mp hy with h | h
              · subst h; omega
              · exact hacc y h

/-- C7 (amended): every node of the parsed sequence except possibly the
terminal one sits at or above the instrumentation threshold 0x2000; the
node a below-threshold record would produce is discarded and never linked.
(The terminal node — the ebreak line, or a record truncated by EOF — is
kept before the threshold check runs, see the counterexample.) -/
theorem C7_threshold_filter (lines : List (List Char)) (x : Instr)
    (hx : x ∈ (ParseSpike lines).instructions.dropLast) :
    SPIKE_SKIP_THRESHOLD ≤ x.addr := by
  have hfull : ∀ y ∈ (parseLoop lines emptyInstr []).dropLast,
      SPIKE_SKIP_THRESHOLD ≤ y.addr :=
    parseLoop_threshold lines.length lines (le_refl _) emptyInstr []
      (by intro y hy; simp at hy)
  unfold ParseSpike at hx
  simp only at hx
  rcases hpr : (parseLoop lines emptyInstr []).getLast? with _ | y
  · rw [pruneLast, hpr] at hx
    simp at hx
  · rw [pruneLast, hpr] at hx
    dsimp only at hx
    by_cases hins : y.instr = []
    · rw [if_pos hins] at hx
      exact hfull x (((parseLoop lines emptyInstr []).dropLast.dropLast_sublist).mem hx)
    · rw [if_neg hins] at hx
      exact hfull x hx

/-- Demo log for the C7 witness: one in-range record, then the terminal
ebreak. -/
def c7Log : List (List Char) :=
  [( "c 0 2000 (00100093) addi x1, x0, 1\n").toList,
   ( "y) x1 ff\n").toList,
   ( "c 0 2008 (00100073) ebreak\n").toList]

/-- The node the in-range record of `c7Log` produces. -/
def c7Node : Instr :=
  parseLine2 (parseLine1 emptyInstr
    ( "c 0 2000 (00100093) addi x1, x0, 1\n").toList) ( "y) x1 ff\n").toList

/-- Witness for C7: the in-range node is a non-terminal node of the result
and its address is above the threshold. -/
theorem C7_threshold_filter_witness :
    c7Node ∈ (ParseSpike c7Log).instructions.dropLast
    ∧ SPIKE_SKIP_THRESHOLD ≤ c7Node.addr :=
  ⟨by decide, C7_threshold_filter c7Log c7Node (by decide)⟩

/-- C7 counterexample: a terminal ebreak record at address 0x1000 — below
the threshold — is materialized as a node of the resulting sequence,
because the ebreak test stops ingestion before the threshold check runs. -/
theorem C7_counterexample :
    (ParseSpike [( "x 0 1000 (00100073) ebreak\n").toList]).instructions.map
        Instr.addr = [0x1000]
    ∧ (0x1000 : Nat) < SPIKE_SKIP_THRESHOLD := by
  constructor
  · decide
  · decide

/-! ## C6: round-trip of a two-instruction log

Hexadecimal rendering used to build the log text, with its parse
inverse. -/

/-- Lowercase hexadecimal digit character. -/
def hexDigitChar (d : Nat) : Char :=
  if d < 10 then Char.ofNat (48 + d) else Char.ofNat (87 + d)

/-- Lowercase hexadecimal rendering of a positive number (most significant
digit first, no leading zeros), as the Spike log prints addresses. -/
def toHex (n : Nat) : List Char :=
  (Nat.digits 16 n).reverse.map hexDigitChar

theorem toHex_ne_nil {n : Nat} (hn : 0 < n) : toHex n ≠ [] := by
  simp only [toHex, ne_eq, List.map_eq_nil_iff, List.reverse_eq_nil_iff]
  exact Nat.digits_ne_nil_iff_ne_zero.mpr (by omega)

theorem hexDigitChar_spec : ∀ d, d < 16 →
    isHexDigitC (hexDigitChar d) = true ∧ hexCharVal (hexDigitChar d) = d := by
  decide

theorem toHex_mem_hex {n : Nat} {c : Char} (hc : c ∈ toHex n) :
    isHexDigitC c = true := by
  simp only [toHex, List.mem_map, List.mem_reverse] at hc
  obtain ⟨d, hd, rfl⟩ := hc
  exact (hexDigitChar_spec d (Nat.digits_lt_base (by norm_num) hd)).1

/-- Facts about hexadecimal digit characters needed while stepping the
parser over rendered text. -/
theorem hexChar_props {c : Char} (hc : isHexDigitC c = true) :
    (c == ' ') = false ∧ (c != ' ') = true ∧ isWS c = false
    ∧ (c == '>') = false ∧ (c == '$') = false := by
  simp only [isHexDigitC, Bool.or_eq_true, Bool.and_eq_true,
    decide_eq_true_eq] at hc
  have hne : ∀ m : Nat, c.toNat ≠ m → (c == Char.ofNat m) = false ∨ True := by
    intro m _; exact Or.inr trivial
  have h32 : c.toNat ≠ 32 := by omega
  have hgt : c.toNat ≠ 62 := by omega
  have hdl : c.toNat ≠ 36 := by omega
  have h9 : c.toNat ≠ 9 := by omega
  have h10 : c.toNat ≠ 10 := by omega
  have h13 : c.toNat ≠ 13 := by omega
  have h11 : c.toNat ≠ 11 := by omega
  have h12 : c.toNat ≠ 12 := by omega
  have key : ∀ (x : Char), c.toNat ≠ x.toNat → (c == x) = false := by
    intro x hx
    apply beq_eq_false_iff_ne.mpr
    intro h
    exact hx (by rw [h])
  refine ⟨key ' ' (by simpa using h32), ?_, ?_, key '>' (by simpa using hgt),
    key '$' (by simpa using hdl)⟩
  · simp only [bne, key ' ' (by simpa using h32), Bool.not_false]
  · simp only [isWS, key ' ' (by simpa using h32), key '\t' (by simpa using h9),
      key '\n' (by simpa using h10), key '\r' (by simpa using h13),
      key '\x0b' (by simpa using h11), key '\x0c' (by simpa using h12)]
    rfl

theorem foldr_hex_digits (L : List Nat) (h : ∀ d ∈ L, d < 16) :
    L.foldr (fun d a => 16 * a + hexCharVal (hexDigitChar d)) 0
      = Nat.ofDigits 16 L := by
  induction L with
  | nil => rfl
  | cons d L ih =>
    simp only [List.foldr_cons, Nat.ofDigits_cons]
    rw [ih (fun x hx => h x (by simp [hx])),
        (hexDigitChar_spec d (h d (by simp))).2]
    omega

/-- Parsing the rendered hexadecimal digits recovers the number. -/
theorem toHex_val (n : Nat) :
    (toHex n).foldl (fun a c => 16 * a + hexCharVal c) 0 = n := by
  rw [toHex, List.foldl_map, List.foldl_reverse]
  rw [foldr_hex_digits _ (fun d hd => Nat.digits_lt_base (by norm_num) hd)]
  exact_mod_cast Nat.ofDigits_digits 16 n

/-- dropWhile passes over an append whose left part wholly satisfies the
predicate. -/
theorem dropWhile_append_sat {p : Char → Bool} (l r : List Char)
    (h : ∀ c ∈ l, p c = true) :
    (l ++ r).dropWhile p = r.dropWhile p := by
  induction l with
  | nil => rfl
  | cons c cs ih =>
    simp only [List.cons_append, List.dropWhile_cons, h c (by simp)]
    exact ih (fun x hx => h x (by simp [hx]))

/-- dropWhile stops immediately when the head of a non-empty left part
fails the predicate. -/
theorem dropWhile_append_unsat {p : Char → Bool} (l r : List Char)
    (hl : l ≠ []) (h : ∀ c ∈ l, p c = false) :
    (l ++ r).dropWhile p = l ++ r := by
  cases l with
  | nil => exact absurd rfl hl
  | cons c cs =>
    simp only [List.cons_append, List.dropWhile_cons, h c (by simp)]
    simp

/-- takeWhile collects an append's left part when it wholly satisfies the
predicate. -/
theorem takeWhile_append_sat {p : Char → Bool} (l r : List Char)
    (h : ∀ c ∈ l, p c = true) :
    (l ++ r).takeWhile p = l ++ r.takeWhile p := by
  induction l with
  | nil => rfl
  | cons c cs ih =>
    simp only [List.cons_append, List.takeWhile_cons, h c (by simp)]
    rw [ih (fun x hx => h x (by simp [hx]))]
    simp

/-- scanHex reads back exactly the rendered digits of a positive number
when a space follows them. -/
theorem scanHex_toHex (n : Nat) (hn : 0 < n) (r : List Char) :
    scanHex (toHex n ++ ' ' :: r) = some n := by
  unfold scanHex
  dsimp only
  rw [dropWhile_append_unsat _ _ (toHex_ne_nil hn)
        (fun c hc => (hexChar_props (toHex_mem_hex hc)).2.2.1),
      takeWhile_append_sat _ _ (fun c hc => toHex_mem_hex hc)]
  rw [show (' ' :: r).takeWhile isHexDigitC = [] from by
        simp [List.takeWhile_cons]; decide]
  rw [List.append_nil]
  simp [toHex_val, List.isEmpty_eq_true, toHex_ne_nil hn]

/-- moveToNextSpace skips exactly the rendered digits. -/
theorem moveToNextSpace_toHex (n : Nat) (r : List Char) :
    moveToNextSpace (toHex n ++ ' ' :: r) = ' ' :: r := by
  unfold moveToNextSpace
  rw [dropWhile_append_sat _ _
        (fun c hc => (hexChar_props (toHex_mem_hex hc)).2.1)]
  simp [List.dropWhile_cons]

/-- A matched substring's first character occurs in the searched list. -/
theorem head_mem_of_hasSubstr (x : Char) (p l : List Char)
    (h : hasSubstr (x :: p) l = true) : x ∈ l := by
  induction l with
  | nil => simp [hasSubstr, startsWithL] at h
  | cons c cs ih =>
    simp only [hasSubstr, Bool.or_eq_true] at h
    rcases h with h | h
    · simp only [startsWithL, Bool.and_eq_true, beq_iff_eq] at h
      exact List.mem_cons.mpr (Or.inl h.1)
    · exact List.mem_cons.mpr (Or.inr (ih h))

/-- A first line of the rendered form `c 0 <hex> <rest>` is not skipped by
the denylist when `rest` is free of `>` and `$`. -/
theorem skipLine_line1 (a : Nat) (rest : List Char)
    (hgt : '>' ∉ rest) (hdl : '$' ∉ rest) :
    skipLine ('c' :: ' ' :: '0' :: ' ' :: (toHex a ++ ' ' :: rest)) = false := by
  have hmemline : ∀ x : Char, isHexDigitC x = false → x ≠ 'c' → x ≠ ' '
      → x ≠ '0' → x ∉ rest
      → x ∉ ('c' :: ' ' :: '0' :: ' ' :: (toHex a ++ ' ' :: rest)) := by
    intro x hx h1 h2 h3 h4 hmem
    simp only [List.mem_cons, List.mem_append] at hmem
    rcases hmem with h | h | h | h | (h | h | h)
    · exact h1 h
    · exact h2 h
    · exact h3 h
    · exact h2 h
    · rw [toHex_mem_hex h] at hx; exact absurd hx (by simp)
    · exact h2 h
    · exact h4 h
  have hgtl := hmemline '>' (by decide) (by decide) (by decide) (by decide) hgt
  have hdll := hmemline '$' (by decide) (by decide) (by decide) (by decide) hdl
  have h1 : hasSubstr ('>' :: '>' :: '>' :: '>' :: [])
      ('c' :: ' ' :: '0' :: ' ' :: (toHex a ++ ' ' :: rest)) = false := by
    cases h : hasSubstr ('>' :: '>' :: '>' :: '>' :: [])
        ('c' :: ' ' :: '0' :: ' ' :: (toHex a ++ ' ' :: rest))
    · rfl
    · exact absurd (head_mem_of_hasSubstr _ _ _ h) hgtl
  have h2 : hasSubstr ('$' :: 'x' :: [])
      ('c' :: ' ' :: '0' :: ' ' :: (toHex a ++ ' ' :: rest)) = false := by
    cases h : hasSubstr ('$' :: 'x' :: [])
        ('c' :: ' ' :: '0' :: ' ' :: (toHex a ++ ' ' :: rest))
    · rfl
    · exact absurd (head_mem_of_hasSubstr _ _ _ h) hdll
  have h3 : isCommentOrBlank
      ('c' :: ' ' :: '0' :: ' ' :: (toHex a ++ ' ' :: rest)) = false := by
    simp [isCommentOrBlank, List.dropWhile_cons]
  simp [skipLine, h1, h2, h3]

/-- Stepping ParseCore over a rendered first line: the skipped leading
token, the parsed core id 0, and the cursor left at the address digits. -/
theorem parseCore_step (ins : Instr) (a : Nat) (ha : 0 < a) (rest : List Char) :
    ParseCore ins ('c' :: ' ' :: '0' :: ' ' :: (toHex a ++ ' ' :: rest))
      = ({ ins with core := 0 }, toHex a ++ ' ' :: rest) := by
  have hdrop : removeSpaces (toHex a ++ ' ' :: rest) = toHex a ++ ' ' :: rest :=
    dropWhile_append_unsat _ _ (toHex_ne_nil ha)
      (fun c hc => (hexChar_props (toHex_mem_hex hc)).1)
  unfold ParseCore moveToNextSpace removeSpaces
  dsimp only
  rw [show List.dropWhile (fun c => c != ' ')
        ('c' :: ' ' :: '0' :: ' ' :: (toHex a ++ ' ' :: rest))
        = ' ' :: '0' :: ' ' :: (toHex a ++ ' ' :: rest) from by
      simp [List.dropWhile_cons]]
  rw [show List.dropWhile (fun c => c == ' ')
        (' ' :: '0' :: ' ' :: (toHex a ++ ' ' :: rest))
        = '0' :: ' ' :: (toHex a ++ ' ' :: rest) from by
      simp [List.dropWhile_cons]]
  rw [show List.dropWhile (fun c => c != ' ')
        ('0' :: ' ' :: (toHex a ++ ' ' :: rest))
        = ' ' :: (toHex a ++ ' ' :: rest) from by
      simp [List.dropWhile_cons]]
  rw [show List.dropWhile (fun c => c == ' ') (' ' :: (toHex a ++ ' ' :: rest))
        = List.dropWhile (fun c => c == ' ') (toHex a ++ ' ' :: rest) from by
      simp [List.dropWhile_cons]]
  rw [show scanDec ('0' :: ' ' :: (toHex a ++ ' ' :: rest)) = some 0 from by
      unfold scanDec
      dsimp only
      rw [show List.dropWhile isWS ('0' :: ' ' :: (toHex a ++ ' ' :: rest))
            = '0' :: ' ' :: (toHex a ++ ' ' :: rest) from by
          simp [List.dropWhile_cons, isWS]]
      rw [show List.takeWhile isDigitC ('0' :: ' ' :: (toHex a ++ ' ' :: rest))
            = ['0'] from by
          simp [List.takeWhile_cons, isDigitC]]
      rfl]
  rw [show removeSpaces (toHex a ++ ' ' :: rest)
        = List.dropWhile (fun c => c == ' ') (toHex a ++ ' ' :: rest) from rfl] at hdrop
  rw [hdrop]

/-- Stepping ParseAddr over the rendered address digits. -/
theorem parseAddr_step (ins : Instr) (a : Nat) (ha : 0 < a) (rest : List Char)
    (hr : removeSpaces rest = rest) :
    ParseAddr ins (toHex a ++ ' ' :: rest)
      = ({ ins with addr := a % U32 }, rest) := by
  unfold ParseAddr
  dsimp only
  rw [scanHex_toHex a ha rest, moveToNextSpace_toHex]
  rw [show removeSpaces (' ' :: rest) = removeSpaces rest from by
      simp [removeSpaces, List.dropWhile_cons]]
  rw [hr]

/-- Mnemonic text of the first demo instruction. -/
def c6AsmA : List Char := ( "addi x1, x0, 1").toList

/-- First line tail (encoding + mnemonic) of the first demo instruction. -/
def c6RestA : List Char := ( "(00100093) addi x1, x0, 1\n").toList

/-- Rendered first line of the first demo instruction at address `a`. -/
def c6Line1A (a : Nat) : List Char :=
  'c' :: ' ' :: '0' :: ' ' :: (toHex a ++ ' ' :: c6RestA)

/-- Result line of the first demo instruction: writeback x1 = 0xff. -/
def c6Line2A : List Char := ( "y) x1 ff\n").toList

def c6AsmB : List Char := ( "addi x2, x0, 31").toList

def c6RestB : List Char := ( "(00200113) addi x2, x0, 31\n").toList

def c6Line1B (a : Nat) : List Char :=
  'c' :: ' ' :: '0' :: ' ' :: (toHex a ++ ' ' :: c6RestB)

def c6Line2B : List Char := ( "y) x2 1f\n").toList

/-- Terminal ebreak record line. -/
def c6LineE : List Char := ( "c 0 2008 (00100073) ebreak\n").toList

/-- A line after the ebreak record; ingestion must never reach it. -/
def c6Trail : List Char := ( "y) x7 123\n").toList

/-- The demo log: records A and B (two lines each, addresses rendered from
`a1`, `a2`), the terminal ebreak line, and a trailing line. -/
def c6Log (a1 a2 : Nat) : List (List Char) :=
  [c6Line1A a1, c6Line2A, c6Line1B a2, c6Line2B, c6LineE, c6Trail]

theorem parseLine1_c6A (a : Nat) (ha : 0 < a) :
    parseLine1 emptyInstr (c6Line1A a)
      = ⟨0, a % U32, 0x00100093, c6AsmA, 0, 0, 0, 0⟩ := by
  unfold parseLine1 c6Line1A
  dsimp only
  rw [parseCore_step emptyInstr a ha c6RestA]
  dsimp only
  rw [parseAddr_step _ a ha c6RestA (by decide)]
  rfl

theorem parseLine1_c6B (a : Nat) (ha : 0 < a) :
    parseLine1 emptyInstr (c6Line1B a)
      = ⟨0, a % U32, 0x00200113, c6AsmB, 0, 0, 0, 0⟩ := by
  unfold parseLine1 c6Line1B
  dsimp only
  rw [parseCore_step emptyInstr a ha c6RestB]
  dsimp only
  rw [parseAddr_step _ a ha c6RestB (by decide)]
  rfl

theorem parseLine2_c6A (ins : Instr) :
    parseLine2 ins c6Line2A = { ins with rd := 1, rd_data := 0xff } := rfl

theorem parseLine2_c6B (ins : Instr) :
    parseLine2 ins c6Line2B = { ins with rd := 2, rd_data := 0x1f } := rfl

/-- One full accepted record advances the loop: consume two lines, link the
parsed node, restart from a zeroed node. -/
theorem parseLoop_step_record (l1 l2 : List Char) (rest : List (List Char))
    (cur : Instr) (acc : List Instr)
    (h1 : skipLine l1 = false)
    (hne : isEbreak (parseLine1 cur l1).instr = false)
    (h2 : isCommentOrBlank l2 = false)
    (hth : ¬ (parseLine2 (parseLine1 cur l1) l2).addr < SPIKE_SKIP_THRESHOLD) :
    parseLoop (l1 :: l2 :: rest) cur acc
      = parseLoop rest emptyInstr (parseLine2 (parseLine1 cur l1) l2 :: acc) := by
  simp [parseLoop, h1, hne, h2, hth]

/-- The terminal line stops ingestion with the ebreak node linked last;
later lines are never read. -/
theorem parseLoop_step_ebreak (l1 : List Char) (rest : List (List Char))
    (cur : Instr) (acc : List Instr)
    (h1 : skipLine l1 = false)
    (he : isEbreak (parseLine1 cur l1).instr = true) :
    parseLoop (l1 :: rest) cur acc = acc.reverse ++ [parseLine1 cur l1] := by
  cases rest <;> simp [parseLoop, h1, he]

/-- C6: parsing the demo log of two in-range records A (address a1) and B
(address a2) followed by the terminal ebreak record yields exactly the
three-node chain A → B → ebreak → null; the addr fields equal the rendered
addresses, ingestion stops at the ebreak line (the trailing line is never
consumed), and the ebreak node's register and memory fields keep their
calloc zeros — no result line is consumed for it. -/
theorem C6_parse_roundtrip (a1 a2 : Nat)
    (h1l : SPIKE_SKIP_THRESHOLD ≤ a1) (h1u : a1 < U32)
    (h2l : SPIKE_SKIP_THRESHOLD ≤ a2) (h2u : a2 < U32) :
    (ParseSpike (c6Log a1 a2)).instructions =
      [⟨0, a1, 0x00100093, c6AsmA, 1, 0xff, 0, 0⟩,
       ⟨0, a2, 0x00200113, c6AsmB, 2, 0x1f, 0, 0⟩,
       ⟨0, 0x2008, 0x00100073, ( "ebreak").toList, 0, 0, 0, 0⟩] := by
  have ha1 : 0 < a1 := by
    simp only [SPIKE_SKIP_THRESHOLD] at h1l; omega
  have ha2 : 0 < a2 := by
    simp only [SPIKE_SKIP_THRESHOLD] at h2l; omega
  have hm1 : a1 % U32 = a1 := Nat.mod_eq_of_lt h1u
  have hm2 : a2 % U32 = a2 := Nat.mod_eq_of_lt h2u
  have hA : parseLine2 (parseLine1 emptyInstr (c6Line1A a1)) c6Line2A
      = ⟨0, a1, 0x00100093, c6AsmA, 1, 0xff, 0, 0⟩ := by
    rw [parseLine1_c6A a1 ha1, parseLine2_c6A, hm1]
  have hB : parseLine2 (parseLine1 emptyInstr (c6Line1B a2)) c6Line2B
      = ⟨0, a2, 0x00200113, c6AsmB, 2, 0x1f, 0, 0⟩ := by
    rw [parseLine1_c6B a2 ha2, parseLine2_c6B, hm2]
  have hE : parseLine1 emptyInstr c6LineE
      = ⟨0, 0x2008, 0x00100073, ( "ebreak").toList, 0, 0, 0, 0⟩ := by decide
  unfold ParseSpike c6Log
  rw [parseLoop_step_record (c6Line1A a1) c6Line2A _ emptyInstr []
        (skipLine_line1 a1 c6RestA (by decide) (by decide))
        (by rw [parseLine1_c6A a1 ha1]
            show isEbreak c6AsmA = false
            decide)
        (by decide)
        (by rw [hA]
            show ¬ a1 < SPIKE_SKIP_THRESHOLD
            omega)]
  rw [hA]
  rw [parseLoop_step_record (c6Line1B a2) c6Line2B _ emptyInstr _
        (skipLine_line1 a2 c6RestB (by decide) (by decide))
        (by rw [parseLine1_c6B a2 ha2]
            show isEbreak c6AsmB = false
            decide)
        (by decide)
        (by rw [hB]
            show ¬ a2 < SPIKE_SKIP_THRESHOLD
            omega)]
  rw [hB]
  rw [parseLoop_step_ebreak c6LineE [c6Trail] emptyInstr _
        (by decide)
        (by rw [hE]; decide)]
  rw [hE]
  simp [pruneLast]

/-- Witness for C6 at a1 = 0x2000, a2 = 0x2abc. -/
theorem C6_parse_roundtrip_witness :
    (ParseSpike (c6Log 0x2000 0x2abc)).instructions =
      [⟨0, 0x2000, 0x00100093, c6AsmA, 1, 0xff, 0, 0⟩,
       ⟨0, 0x2abc, 0x00200113, c6AsmB, 2, 0x1f, 0, 0⟩,
       ⟨0, 0x2008, 0x00100073, ( "ebreak").toList, 0, 0, 0, 0⟩] :=
  C6_parse_roundtrip 0x2000 0x2abc (by decide) (by norm_num [U32])
    (by decide) (by norm_num [U32])

/-- C9 counterexample: a file holding a single below-threshold terminal
ebreak record (address 0x1004 < 0x2000) contains no parseable in-range
instruction record, yet ParseSpike returns a SpikeLog whose instruction
list is non-null — the terminal record is linked before the threshold
check, so the claimed null instruction pointer does not hold for every
in-range-record-free file. -/
theorem C9_counterexample :
    (ParseSpike [ "z 0 1004 (00100073) ebreak\n".toList]).instructions.map
        Instr.addr = [0x1004]
    ∧ (0x1004 : Nat) < SPIKE_SKIP_THRESHOLD
    ∧ (ParseSpike [ "z 0 1004 (00100073) ebreak\n".toList]).instructions ≠ [] := by
  refine ⟨by decide, by decide, by decide⟩
